import Mathlib

/-!
Shallow embedding of the two ADT74x0 temperature-scanner programs
(`adt74x0.c`, the generic kernel-I2C variant, and `adt74x0b.c`, the
bcm2835-library variant) and proofs about them.

The transport (ioctl / SMBus calls / bcm2835 library calls) is modelled
as an environment assigning to every 7-bit device address the result each
distinct call site would observe at that address; each call site is
exercised at most once per address per run, so this is fully general.
Every bus operation the program issues is recorded in a trace, and every
`printf` line in an output list.  `double` temperatures are modelled as
rationals: all values produced here are signed 16-bit integers divided by
128, on which double arithmetic is exact.
-/

/-- Register constants from the C sources. -/
def T_MSB : Nat := 0x00

/-- Configuration register. -/
def CONFIG : Nat := 0x03

/-- Identification register. -/
def IDREG : Nat := 0x0b

/-- Reset command byte. -/
def RESET : Nat := 0x2f

/-- Number of 7-bit I2C addresses (`I2C_ADDRS`). -/
def I2C_ADDRS : Nat := 128

/-- Interpret the low 16 bits of a natural number as a two's-complement
signed 16-bit integer (the effect of storing into `int16_t`). -/
def toSigned16 (n : Nat) : Int :=
  let m := n % 65536
  if m < 32768 then (m : Int) else (m : Int) - 65536

/-- Store an integer into an `int8_t` (two's-complement wrap-around),
as `devs[i] = stat` does in the C sources. -/
def toSigned8 (x : Int) : Int :=
  let m := x % 256
  if m < 128 then m else m - 256

/-- Bus operations issued by either program, tagged with the 7-bit
address they are directed at (`none` of an address only for sleeps). -/
inductive Ev : Type where
  /-- `ioctl(file, I2C_SLAVE, addr)` (generic variant). -/
  | selA (addr : Nat)
  /-- `i2c_smbus_write_byte(file, v)` at the selected address. -/
  | wByte (addr v : Nat)
  /-- `i2c_smbus_write_byte_data(file, reg, v)`. -/
  | wByteData (addr reg v : Nat)
  /-- `i2c_smbus_read_byte_data(file, reg)`. -/
  | rByteData (addr reg : Nat)
  /-- `i2c_smbus_read_word_data(file, reg)`. -/
  | rWordData (addr reg : Nat)
  /-- `usleep(us)` (generic variant). -/
  | usleepEv (us : Nat)
  /-- `bcm2835_i2c_setSlaveAddress(addr)` (library variant). -/
  | setSlave (addr : Nat)
  /-- `bcm2835_i2c_write(buff, len)` of the given bytes at the
  currently selected address. -/
  | i2cWrite (addr : Nat) (data : List Nat)
  /-- `bcm2835_i2c_read_register_rs(&reg, buff, n)` at the selected
  address. -/
  | rRegRs (addr reg n : Nat)
  /-- `bcm2835_delay(ms)`. -/
  | delayEv (ms : Nat)
deriving DecidableEq

/-- The device address an event is directed at, if any. -/
def evAddr : Ev → Option Nat
  | .selA a => some a
  | .wByte a _ => some a
  | .wByteData a _ _ => some a
  | .rByteData a _ => some a
  | .rWordData a _ => some a
  | .usleepEv _ => none
  | .setSlave a => some a
  | .i2cWrite a _ => some a
  | .rRegRs a _ _ => some a
  | .delayEv _ => none

/-- Lines printed on standard output by either program. -/
inductive OutLine : Type where
  /-- `# Scanning %s for ADT74x0...` header. -/
  | scanning
  /-- `Unable to open %s` before `exit(1)`. -/
  | openFail
  /-- `# 0x%02x has ID 0x%02x` (generic variant, `GOOD_I2C_BUS` builds). -/
  | idLine (addr : Nat) (id : Nat)
  /-- `# 0x%02x error %d` for a failed read. -/
  | errLine (addr : Nat) (code : Int)
  /-- `0x%02x %.5fC` for a decoded temperature. -/
  | tempLine (addr : Nat) (t : ℚ)
deriving DecidableEq

/-- The device address an output line reports about, if any. -/
def lineAddr : OutLine → Option Nat
  | .scanning => none
  | .openFail => none
  | .idLine a _ => some a
  | .errLine a _ => some a
  | .tempLine a _ => some a

/-- Whether a line is a per-address result line of the read phase
(error annotation or temperature). -/
def isResultLine : OutLine → Bool
  | .errLine _ _ => true
  | .tempLine _ _ => true
  | _ => false

/-- Transport environment for the generic variant: for each 7-bit
address, the integer result each of the six call sites of `adt74x0.c`
would observe there. -/
structure EnvA : Type where
  /-- Result of `ioctl(file, I2C_SLAVE, addr)` in `init_adt74x0`. -/
  ioctlInit : Nat → Int
  /-- Result of `i2c_smbus_write_byte(file, RESET)`. -/
  writeReset : Nat → Int
  /-- Result of `i2c_smbus_read_byte_data(file, IDREG)`. -/
  readId : Nat → Int
  /-- Result of `i2c_smbus_write_byte_data(file, CONFIG, 0x80)`. -/
  writeConfig : Nat → Int
  /-- Result of `ioctl(file, I2C_SLAVE, addr)` in `read_adt74x0`. -/
  ioctlRead : Nat → Int
  /-- Result of `i2c_smbus_read_word_data(file, T_MSB)`. -/
  readWord : Nat → Int

/-- Transport environment for the bcm2835 variant: per address, the
status code of each write and the status and data of each read.  The
library's status codes are `uint8_t` reason codes, hence naturals. -/
structure EnvB : Type where
  /-- Status of `bcm2835_i2c_write` of the 1-byte reset command. -/
  writeReset : Nat → Nat
  /-- Status of `bcm2835_i2c_write` of the 2-byte config command. -/
  writeConfig : Nat → Nat
  /-- Status and byte delivered by the 1-byte read of `IDREG`. -/
  readId : Nat → Nat × Nat
  /-- Status and two bytes delivered by the 2-byte read at `T_MSB`. -/
  readTemp : Nat → Nat × Nat × Nat

/-- Result of one `init_adt74x0` call: its return value, the lines it
printed and the bus operations it issued. -/
structure StepRes : Type where
  stat : Int
  lines : List OutLine
  trace : List Ev
deriving DecidableEq

/-- Result of one `read_adt74x0` call: return value, the value of the
caller's `*temp` location after the call, and the trace. -/
structure ReadRes : Type where
  stat : Int
  temp : ℚ
  trace : List Ev
deriving DecidableEq

/-- `init_adt74x0` of `adt74x0.c`.  `g` is the `GOOD_I2C_BUS`
compile-time flag enabling the optional identity check. -/
def initA (g : Bool) (e : EnvA) (addr : Nat) : StepRes :=
  if e.ioctlInit addr < 0 then ⟨-1, [], [.selA addr]⟩
  else if e.writeReset addr < 0 then ⟨-2, [], [.selA addr, .wByte addr RESET]⟩
  else
    -- usleep(250): device needs 200us after reset
    let t2 : List Ev := [.selA addr, .wByte addr RESET, .usleepEv 250]
    if g then
      let s := e.readId addr
      let t3 := t2 ++ [.rByteData addr IDREG]
      if s < 0 then ⟨-3, [], t3⟩
      else
        let ln : List OutLine := [.idLine addr s.toNat]
        if s.toNat &&& 0xf8 ≠ 0xc8 then ⟨-4, ln, t3⟩
        else if e.writeConfig addr < 0 then ⟨-5, ln, t3 ++ [.wByteData addr CONFIG 0x80]⟩
        else ⟨0, ln, t3 ++ [.wByteData addr CONFIG 0x80]⟩
    else
      if e.writeConfig addr < 0 then ⟨-5, [], t2 ++ [.wByteData addr CONFIG 0x80]⟩
      else ⟨0, [], t2 ++ [.wByteData addr CONFIG 0x80]⟩

/-- The byte-order flip and 16-bit decode of `read_adt74x0` in
`adt74x0.c`, applied to the non-negative SMBus word `w`:
`lo = (w & 0xff00) >> 8; hi = w & 0x00ff; t128 = hi << 8 | lo`. -/
def decode16A (w : Nat) : Int :=
  let lo := (w &&& 0xff00) >>> 8
  let hi := w &&& 0x00ff
  toSigned16 ((hi <<< 8) ||| lo)

/-- `read_adt74x0` of `adt74x0.c`.  `temp` is the value held by the
caller's `*temp` location before the call. -/
def readA (e : EnvA) (addr : Nat) (temp : ℚ) : ReadRes :=
  if e.ioctlRead addr < 0 then ⟨-1, temp, [.selA addr]⟩
  else
    let w := e.readWord addr
    let tr : List Ev := [.selA addr, .rWordData addr T_MSB]
    if w < 0 then ⟨-6, temp, tr⟩
    else ⟨0, (decode16A w.toNat : ℚ) / 128, tr⟩

/-- `init_adt74x0` of `adt74x0b.c` (bcm2835 variant): reset, wait,
configure, then read and check the ID register. -/
def initB (e : EnvB) (addr : Nat) : Int × List Ev :=
  let t0 : List Ev := [.setSlave addr, .i2cWrite addr [RESET]]
  let s1 := e.writeReset addr
  if s1 ≠ 0 then (-(0x10 + (s1 : Int)), t0)
  else
    -- bcm2835_delay(1): device needs 200us after reset, give it 1ms
    let t1 := t0 ++ [.delayEv 1, .i2cWrite addr [CONFIG, 0x80]]
    let s2 := e.writeConfig addr
    if s2 ≠ 0 then (-(0x20 + (s2 : Int)), t1)
    else
      let t2 := t1 ++ [.rRegRs addr IDREG 1]
      let p := e.readId addr
      if p.1 ≠ 0 then (-(0x30 + (p.1 : Int)), t2)
      else if (p.2 % 256) &&& 0xf8 ≠ 0xc8 then (-0x3f, t2)
      else (0, t2)

/-- The decode of `read_adt74x0` in `adt74x0b.c` from the two raw wire
bytes `b0 = buff[0]` (MSB first) and `b1 = buff[1]`:
`hi = buff[0]; lo = buff[1]; t128 = hi << 8 | lo`.  The `% 256` is the
`uint8_t` storage of the received bytes. -/
def decodeB (b0 b1 : Nat) : Int :=
  toSigned16 (((b0 % 256) <<< 8) ||| (b1 % 256))

/-- `read_adt74x0` of `adt74x0b.c`. -/
def readB (e : EnvB) (addr : Nat) (temp : ℚ) : ReadRes :=
  let r := e.readTemp addr
  let tr : List Ev := [.setSlave addr, .rRegRs addr T_MSB 2]
  if r.1 ≠ 0 then ⟨-(0x40 + (r.1 : Int)), temp, tr⟩
  else ⟨0, (decodeB r.2.1 r.2.2 : ℚ) / 128, tr⟩

/-- State threaded through the init pass: the `devs` status array
(modelled as a total function, `int8_t` valued), plus accumulated
output lines and bus trace. -/
structure PhaseRes : Type where
  devs : Nat → Int
  lines : List OutLine
  trace : List Ev

/-- The init pass of `adt74x0.c`'s `main` over the addresses in `l`:
skip addresses with `devs[i] <= 0`, call `init_adt74x0`, and store the
status into `devs[i]` when negative. -/
def initLoopA (g : Bool) (e : EnvA) : List Nat → (Nat → Int) → PhaseRes
  | [], d => ⟨d, [], []⟩
  | i :: rest, d =>
    if d i ≤ 0 then initLoopA g e rest d
    else
      let r := initA g e i
      let d' : Nat → Int := fun j => if j = i ∧ r.stat < 0 then toSigned8 r.stat else d j
      let p := initLoopA g e rest d'
      ⟨p.devs, r.lines ++ p.lines, r.trace ++ p.trace⟩

/-- The read pass of `adt74x0.c`'s `main` over the addresses in `l`:
skip addresses with `devs[i] <= 0`, call `read_adt74x0` (on the fresh
uninitialized `double t`, modelled as 0), and print one line. -/
def readLoopA (e : EnvA) (d : Nat → Int) : List Nat → List OutLine × List Ev
  | [] => ([], [])
  | i :: rest =>
    if d i ≤ 0 then readLoopA e d rest
    else
      let r := readA e i 0
      let line : OutLine := if r.stat < 0 then .errLine i r.stat else .tempLine i r.temp
      let p := readLoopA e d rest
      (line :: p.1, r.trace ++ p.2)

/-- Observable result of a whole program run. -/
structure RunRes : Type where
  exitCode : Nat
  lines : List OutLine
  trace : List Ev
  devs : Nat → Int

/-- Initial `devs` array of `adt74x0.c`: 1 (Candidate) inside the
window `[0x48, 0x4b]`, 0 (ignorable) outside. -/
def devs0A (i : Nat) : Int := if 0x48 ≤ i ∧ i ≤ 0x4b then 1 else 0

/-- `main` of `adt74x0.c`.  `busOk` is whether `open(filename)`
succeeds; `e` supplies every transport result. -/
def mainA (g : Bool) (busOk : Bool) (e : EnvA) : RunRes :=
  if busOk = false then
    { exitCode := 1, lines := [.scanning, .openFail], trace := [], devs := fun _ => 0 }
  else
    let p := initLoopA g e (List.range I2C_ADDRS) devs0A
    let q := readLoopA e p.devs (List.range I2C_ADDRS)
    { exitCode := 0
      lines := .scanning :: (p.lines ++ q.1)
      trace := p.trace ++ [.usleepEv 1000000] ++ q.2
      devs := p.devs }

/-- The init pass of `adt74x0b.c`'s `main`: for every address in `l`,
call `init_adt74x0` and store its status into `devs[i]` (an `int8_t`,
hence the wrap-around). -/
def initLoopB (e : EnvB) : List Nat → (Nat → Int) → (Nat → Int) × List Ev
  | [], d => (d, [])
  | i :: rest, d =>
    let r := initB e i
    let d' : Nat → Int := fun j => if j = i then toSigned8 r.1 else d j
    let p := initLoopB e rest d'
    (p.1, r.2 ++ p.2)

/-- The read pass of `adt74x0b.c`'s `main`: skip addresses with
`devs[i] != 0`, call `read_adt74x0`, and print one line. -/
def readLoopB (e : EnvB) (d : Nat → Int) : List Nat → List OutLine × List Ev
  | [] => ([], [])
  | i :: rest =>
    if d i ≠ 0 then readLoopB e d rest
    else
      let r := readB e i 0
      let line : OutLine := if r.stat < 0 then .errLine i r.stat else .tempLine i r.temp
      let p := readLoopB e d rest
      (line :: p.1, r.trace ++ p.2)

/-- The candidate window scanned by `adt74x0b.c`'s init loop:
`for (i = 0x48; i <= 0x4b; i++)`. -/
def winList : List Nat := [0x48, 0x49, 0x4a, 0x4b]

/-- `main` of `adt74x0b.c`: `devs` starts at −1 everywhere, the init
pass covers only `[0x48, 0x4b]`, and the read pass covers all
addresses with `devs[i] == 0`. -/
def mainB (e : EnvB) : RunRes :=
  let p := initLoopB e winList (fun _ => -1)
  let q := readLoopB e p.1 (List.range I2C_ADDRS)
  { exitCode := 0
    lines := q.1
    trace := p.2 ++ [.delayEv 1000] ++ q.2
    devs := p.1 }

/-- Membership in the plausible sensor address window `[0x48, 0x4b]`. -/
def win (i : Nat) : Prop := 0x48 ≤ i ∧ i ≤ 0x4b

instance (i : Nat) : Decidable (win i) := by unfold win; infer_instance

/-- The output lines of a run that report about address `j`. -/
def linesAt (j : Nat) (ls : List OutLine) : List OutLine :=
  ls.filter (fun x => decide (lineAddr x = some j))

/-- The single line the read pass of `adt74x0.c` prints for an address
it reads: `# 0xNN error code` or `0xNN temperature`. -/
def readLine1A (e : EnvA) (i : Nat) : OutLine :=
  if (readA e i 0).stat < 0 then .errLine i (readA e i 0).stat
  else .tempLine i (readA e i 0).temp

/-- The single line the read pass of `adt74x0b.c` prints for an address
it reads. -/
def readLine1B (e : EnvB) (i : Nat) : OutLine :=
  if (readB e i 0).stat < 0 then .errLine i (readB e i 0).stat
  else .tempLine i (readB e i 0).temp

/-- The per-address update the init pass of `adt74x0.c` applies to
`devs[j]`: left alone when not a candidate, overwritten by a negative
init status. -/
def stepDevsA (g : Bool) (e : EnvA) (j : Nat) (v : Int) : Int :=
  if v ≤ 0 then v
  else if (initA g e j).stat < 0 then toSigned8 (initA g e j).stat else v

/-- A fully healthy generic-variant transport: every call succeeds, the
ID register holds 0xc8, the temperature word is 0x8000 (wire bytes
0x00, 0x80, i.e. 1 °C). -/
def envAok : EnvA :=
  { ioctlInit := fun _ => 0, writeReset := fun _ => 0, readId := fun _ => 0xc8
    writeConfig := fun _ => 0, ioctlRead := fun _ => 0, readWord := fun _ => 0x8000 }

/-- Generic-variant transport whose address selection fails during
init at every address. -/
def envAinitFail : EnvA := { envAok with ioctlInit := fun _ => -1 }

/-- Generic-variant transport whose temperature word read fails with
transport code −99 at every address. -/
def envAread99 : EnvA := { envAok with readWord := fun _ => -99 }

/-- Healthy transport except that the temperature read fails (word
result −7) at address 0x48 only; elsewhere the word is 0x0019
(wire bytes 0x19, 0x00, i.e. 50 °C). -/
def envAoneBad : EnvA :=
  { envAok with readWord := fun a => if a = 0x48 then -7 else 0x0019 }

/-- Healthy generic-variant transport whose ID register holds `b`. -/
def envAid (b : Int) : EnvA := { envAok with readId := fun _ => b }

/-- Healthy generic-variant transport whose temperature word is `w`. -/
def envAw (w : Int) : EnvA := { envAok with readWord := fun _ => w }

/-- A fully healthy bcm2835-variant transport: every call succeeds
with status 0, the ID byte is 0xc8, the wire bytes are 0x19, 0x00
(50 °C). -/
def envBok : EnvB :=
  { writeReset := fun _ => 0, writeConfig := fun _ => 0
    readId := fun _ => (0, 0xc8), readTemp := fun _ => (0, 0x19, 0x00) }

/-- bcm2835-variant transport whose reset write fails with reason 1 at
every address. -/
def envBinitFail : EnvB := { envBok with writeReset := fun _ => 1 }

/-- Healthy bcm2835-variant transport whose ID byte is `b`. -/
def envBid (b : Nat) : EnvB := { envBok with readId := fun _ => (0, b) }

/-- Healthy bcm2835-variant transport delivering wire bytes `b0 b1`
from the temperature registers. -/
def envBw (b0 b1 : Nat) : EnvB := { envBok with readTemp := fun _ => (0, b0, b1) }

/-- Bit 8+i of the mask 0xff00 is bit i of 0xff. -/
theorem tbMask (i : Nat) : Nat.testBit 65280 (8 + i) = Nat.testBit 255 i := by
  rw [Nat.testBit_to_div_mod, Nat.testBit_to_div_mod, Nat.pow_add, ← Nat.div_div_eq_div_mul]

/-- Masking with 0xff00 then shifting right by 8 is shifting then
masking with 0xff. -/
theorem and_ff00_shr (n : Nat) : (n &&& 0xff00) >>> 8 = (n >>> 8) &&& 0xff := by
  apply Nat.eq_of_testBit_eq
  intro i
  simp only [Nat.testBit_shiftRight, Nat.testBit_and, tbMask]

/-- Masking with 0xff is reduction mod 256. -/
theorem and_ff_mod (n : Nat) : n &&& 0xff = n % 256 := by
  have h : (0xff : Nat) = 2 ^ 8 - 1 := by norm_num
  rw [h, Nat.and_pow_two_sub_one_eq_mod]

/-- Shifting left by 8 and or-ing a byte is base-256 digit assembly. -/
theorem shl_or_eq (a b : Nat) (hb : b < 256) : (a <<< 8) ||| b = 256 * a + b := by
  have h : (2 : Nat) ^ 8 * a + b = 2 ^ 8 * a ||| b := Nat.mul_add_lt_is_or (by norm_num [hb]) a
  rw [Nat.shiftLeft_eq, Nat.mul_comm a (2 ^ 8), ← h]
  norm_num

/-- The byte flip of `adt74x0.c`, in pure base-256 arithmetic. -/
theorem decode16A_arith (w : Nat) :
    decode16A w = toSigned16 (256 * (w % 256) + w / 256 % 256) := by
  simp only [decode16A, and_ff00_shr]
  simp only [and_ff_mod, Nat.shiftRight_eq_div_pow]
  rw [shl_or_eq _ _ (Nat.mod_lt _ (by norm_num))]

/-- The decode of `adt74x0b.c`, in pure base-256 arithmetic. -/
theorem decodeB_arith (b0 b1 : Nat) (h0 : b0 < 256) (h1 : b1 < 256) :
    decodeB b0 b1 = toSigned16 (256 * b0 + b1) := by
  simp only [decodeB]
  rw [shl_or_eq _ _ (Nat.mod_lt _ (by norm_num))]
  rw [Nat.mod_eq_of_lt h0, Nat.mod_eq_of_lt h1]

/-- `int8_t` conversion is the identity on values already in range. -/
theorem toSigned8_self (x : Int) (h1 : -128 <= x) (h2 : x < 128) : toSigned8 x = x := by
  simp only [toSigned8]
  split_ifs <;> omega

/-- `int8_t` conversion cannot produce 0 from a small negative value. -/
theorem toSigned8_ne_zero (x : Int) (h1 : -255 <= x) (h2 : x <= -1) : toSigned8 x ≠ 0 := by
  simp only [toSigned8]
  split_ifs <;> omega

/-- `init_adt74x0` of `adt74x0.c` only returns the fixed step codes
−5…0. -/
theorem initA_stat_range (g : Bool) (e : EnvA) (i : Nat) :
    -5 <= (initA g e i).stat ∧ (initA g e i).stat <= 0 := by
  unfold initA
  split_ifs <;> try norm_num
  all_goals split_ifs <;> norm_num

/-- `read_adt74x0` of `adt74x0.c` only returns −1, −6 or 0. -/
theorem readA_stat_cases (e : EnvA) (i : Nat) (t : ℚ) :
    (readA e i t).stat = -1 ∨ (readA e i t).stat = -6 ∨ (readA e i t).stat = 0 := by
  simp only [readA]
  split_ifs <;> try norm_num
  all_goals split_ifs <;> norm_num

/-- `read_adt74x0` of `adt74x0b.c` returns 0 or a code ≤ −0x40. -/
theorem readB_stat_cases (e : EnvB) (i : Nat) (t : ℚ) :
    (readB e i t).stat = 0 ∨ (readB e i t).stat <= -0x40 := by
  simp only [readB]
  split_ifs <;> simp <;> omega

/-- Every bus operation issued by `init_adt74x0` (generic variant) is
directed at its own address. -/
theorem initA_trace_addr (g : Bool) (e : EnvA) (i : Nat) :
    ∀ ev ∈ (initA g e i).trace, ∀ a, evAddr ev = some a → a = i := by
  simp only [initA]
  split_ifs <;> (intro ev hev a ha; fin_cases hev <;> simp [evAddr] at ha ⊢ <;> omega)

/-- Every line printed by `init_adt74x0` (generic variant) reports its
own address. -/
theorem initA_lines_addr (g : Bool) (e : EnvA) (i : Nat) :
    ∀ x ∈ (initA g e i).lines, lineAddr x = some i := by
  simp only [initA]
  split_ifs <;> (intro x hx; fin_cases hx <;> simp [lineAddr])

/-- Without `GOOD_I2C_BUS`, `init_adt74x0` prints nothing. -/
theorem initA_false_lines (e : EnvA) (i : Nat) : (initA false e i).lines = [] := by
  simp only [initA]
  split_ifs <;> simp_all

/-- Every bus operation issued by `read_adt74x0` (generic variant) is
directed at its own address. -/
theorem readA_trace_addr (e : EnvA) (i : Nat) (t : ℚ) :
    ∀ ev ∈ (readA e i t).trace, ∀ a, evAddr ev = some a → a = i := by
  simp only [readA]
  split_ifs <;> (intro ev hev a ha; fin_cases hev <;> simp [evAddr] at ha ⊢ <;> omega)

/-- Every bus operation issued by `init_adt74x0` (bcm2835 variant) is
directed at its own address. -/
theorem initB_trace_addr (e : EnvB) (i : Nat) :
    ∀ ev ∈ (initB e i).2, ∀ a, evAddr ev = some a → a = i := by
  simp only [initB]
  split_ifs <;> (intro ev hev a ha; fin_cases hev <;> simp [evAddr] at ha ⊢ <;> omega)

/-- Every bus operation issued by `read_adt74x0` (bcm2835 variant) is
directed at its own address. -/
theorem readB_trace_addr (e : EnvB) (i : Nat) (t : ℚ) :
    ∀ ev ∈ (readB e i t).trace, ∀ a, evAddr ev = some a → a = i := by
  simp only [readB]
  split_ifs <;> (intro ev hev a ha; fin_cases hev <;> simp [evAddr] at ha ⊢ <;> omega)

/-- `init_adt74x0` (generic variant) depends only on the transport
results at its own address. -/
theorem initA_congr (g : Bool) (e1 e2 : EnvA) (i : Nat)
    (h1 : e1.ioctlInit i = e2.ioctlInit i) (h2 : e1.writeReset i = e2.writeReset i)
    (h3 : e1.readId i = e2.readId i) (h4 : e1.writeConfig i = e2.writeConfig i) :
    initA g e1 i = initA g e2 i := by
  simp only [initA, h1, h2, h3, h4]

/-- `read_adt74x0` (generic variant) depends only on the transport
results at its own address. -/
theorem readA_congr (e1 e2 : EnvA) (i : Nat) (t : ℚ)
    (h1 : e1.ioctlRead i = e2.ioctlRead i) (h2 : e1.readWord i = e2.readWord i) :
    readA e1 i t = readA e2 i t := by
  simp only [readA, h1, h2]

/-- `init_adt74x0` (bcm2835 variant) depends only on the transport
results at its own address. -/
theorem initB_congr (e1 e2 : EnvB) (i : Nat)
    (h1 : e1.writeReset i = e2.writeReset i) (h2 : e1.writeConfig i = e2.writeConfig i)
    (h3 : e1.readId i = e2.readId i) :
    initB e1 i = initB e2 i := by
  simp only [initB, h1, h2, h3]

/-- `read_adt74x0` (bcm2835 variant) depends only on the transport
results at its own address. -/
theorem readB_congr (e1 e2 : EnvB) (i : Nat) (t : ℚ)
    (h1 : e1.readTemp i = e2.readTemp i) :
    readB e1 i t = readB e2 i t := by
  simp only [readB, h1]

/-- The init pass of `adt74x0.c` leaves `devs[j]` alone for addresses
not visited. -/
theorem initLoopA_devs_not_mem (g : Bool) (e : EnvA) :
    ∀ (l : List Nat) (d : Nat → Int) (j : Nat), j ∉ l →
      (initLoopA g e l d).devs j = d j := by
  intro l
  induction l with
  | nil => intro d j _; rfl
  | cons i rest ih =>
    intro d j hj
    simp only [List.mem_cons, not_or] at hj
    obtain ⟨hji, hjr⟩ := hj
    simp only [initLoopA]
    split_ifs with h
    · exact ih d j hjr
    · rw [ih _ j hjr]
      simp [hji]

/-- The init pass of `adt74x0.c` maps `devs[j]` through `stepDevsA`
for each visited address. -/
theorem initLoopA_devs_mem (g : Bool) (e : EnvA) :
    ∀ (l : List Nat) (d : Nat → Int) (j : Nat), l.Nodup → j ∈ l →
      (initLoopA g e l d).devs j = stepDevsA g e j (d j) := by
  intro l
  induction l with
  | nil => intro d j _ hj; cases hj
  | cons i rest ih =>
    intro d j hnd hj
    have hnd' := List.nodup_cons.mp hnd
    simp only [initLoopA]
    rcases List.mem_cons.mp hj with rfl | hjr
    · split_ifs with h
      · rw [initLoopA_devs_not_mem g e rest d j hnd'.1]
        simp [stepDevsA, h]
      · rw [initLoopA_devs_not_mem g e rest _ j hnd'.1]
        simp only [stepDevsA, if_neg h]
        split_ifs <;> simp_all
    · have hji : j ≠ i := fun hh => hnd'.1 (hh ▸ hjr)
      split_ifs with h
      · exact ih d j hnd'.2 hjr
      · rw [ih _ j hnd'.2 hjr]
        simp [hji]

/-- Every line printed during the init pass of `adt74x0.c` reports an
address from the visited list. -/
theorem initLoopA_lines_addr (g : Bool) (e : EnvA) :
    ∀ (l : List Nat) (d : Nat → Int), ∀ x ∈ (initLoopA g e l d).lines,
      ∃ i ∈ l, lineAddr x = some i := by
  intro l
  induction l with
  | nil => intro d x hx; cases hx
  | cons i rest ih =>
    intro d x hx
    simp only [initLoopA] at hx
    split_ifs at hx with h
    · obtain ⟨i', hi', hx'⟩ := ih d x hx
      exact ⟨i', List.mem_cons_of_mem _ hi', hx'⟩
    · rcases List.mem_append.mp hx with h1 | h2
      · exact ⟨i, List.mem_cons_self _ _, initA_lines_addr g e i x h1⟩
      · obtain ⟨i', hi', hx'⟩ := ih _ x h2
        exact ⟨i', List.mem_cons_of_mem _ hi', hx'⟩

/-- Filtering lines by address distributes over concatenation. -/
theorem linesAt_append (j : Nat) (a b : List OutLine) :
    linesAt j (a ++ b) = linesAt j a ++ linesAt j b := by
  simp [linesAt, List.filter_append]

/-- All of `init_adt74x0`'s own lines survive the filter at its own
address. -/
theorem linesAt_initA_self (g : Bool) (e : EnvA) (j : Nat) :
    linesAt j (initA g e j).lines = (initA g e j).lines := by
  apply List.filter_eq_self.mpr
  intro x hx
  simp [initA_lines_addr g e j x hx]

/-- `init_adt74x0`'s lines vanish under the filter at another
address. -/
theorem linesAt_initA_other (g : Bool) (e : EnvA) (i j : Nat) (hji : j ≠ i) :
    linesAt j (initA g e i).lines = [] := by
  apply List.filter_eq_nil.mpr
  intro x hx
  have := initA_lines_addr g e i x hx
  simp only [this, decide_eq_true_eq, Option.some_inj]
  exact fun hh => hji hh.symm

/-- The lines during the init pass of `adt74x0.c` that report address
`j`: exactly what `init_adt74x0` printed at `j`, if `j` was visited as
a candidate. -/
theorem initLoopA_linesAt (g : Bool) (e : EnvA) :
    ∀ (l : List Nat) (d : Nat → Int) (j : Nat), l.Nodup → j ∈ l →
      linesAt j (initLoopA g e l d).lines =
        if d j ≤ 0 then [] else (initA g e j).lines := by
  intro l
  induction l with
  | nil => intro d j _ hj; cases hj
  | cons i rest ih =>
    intro d j hnd hj
    have hnd' := List.nodup_cons.mp hnd
    have hnotmem : ∀ (d' : Nat → Int), j ∉ rest →
        linesAt j (initLoopA g e rest d').lines = [] := by
      intro d' hjr
      apply List.filter_eq_nil.mpr
      intro x hx
      obtain ⟨i', hi', hx'⟩ := initLoopA_lines_addr g e rest d' x hx
      simp only [hx', decide_eq_true_eq, Option.some_inj]
      exact fun hh => hjr (hh ▸ hi')
    simp only [initLoopA]
    rcases List.mem_cons.mp hj with rfl | hjr
    · by_cases h : d j ≤ 0
      · rw [if_pos h, if_pos h]
        exact hnotmem d hnd'.1
      · rw [if_neg h, if_neg h]
        show linesAt j ((initA g e j).lines ++ (initLoopA g e rest _).lines) =
          (initA g e j).lines
        rw [linesAt_append, linesAt_initA_self, hnotmem _ hnd'.1, List.append_nil]
    · have hji : j ≠ i := fun hh => hnd'.1 (hh ▸ hjr)
      by_cases h : d i ≤ 0
      · rw [if_pos h]
        exact ih d j hnd'.2 hjr
      · rw [if_neg h]
        show linesAt j ((initA g e i).lines ++ (initLoopA g e rest _).lines) = _
        rw [linesAt_append, linesAt_initA_other g e i j hji, ih _ j hnd'.2 hjr]
        simp [hji]

/-- Without `GOOD_I2C_BUS`, the init pass of `adt74x0.c` prints
nothing. -/
theorem initLoopA_false_lines (e : EnvA) :
    ∀ (l : List Nat) (d : Nat → Int), (initLoopA false e l d).lines = [] := by
  intro l
  induction l with
  | nil => intro d; rfl
  | cons i rest ih =>
    intro d
    simp only [initLoopA]
    split_ifs with h
    · exact ih d
    · rw [initA_false_lines, ih]
      rfl

/-- All bus traffic of the init pass of `adt74x0.c` stays inside the
window, provided only window addresses are marked positive. -/
theorem initLoopA_trace_win (g : Bool) (e : EnvA) :
    ∀ (l : List Nat) (d : Nat → Int), (∀ j, 0 < d j → win j) →
      ∀ ev ∈ (initLoopA g e l d).trace, ∀ a, evAddr ev = some a → win a := by
  intro l
  induction l with
  | nil => intro d _ ev hev; cases hev
  | cons i rest ih =>
    intro d hd ev hev a ha
    simp only [initLoopA] at hev
    split_ifs at hev with h
    · exact ih d hd ev hev a ha
    · rcases List.mem_append.mp hev with h1 | h2
      · have := initA_trace_addr g e i ev h1 a ha
        exact this ▸ hd i (by omega)
      · refine ih _ ?_ ev h2 a ha
        intro j hj
        by_cases hji : j = i ∧ (initA g e i).stat < 0
        · exact hji.1 ▸ hd i (by omega)
        · simp only [if_neg hji] at hj
          exact hd j hj

/-- After the init pass of `adt74x0.c`, only window addresses can be
marked positive, provided that held before. -/
theorem initLoopA_devs_win (g : Bool) (e : EnvA) :
    ∀ (l : List Nat) (d : Nat → Int), (∀ j, 0 < d j → win j) →
      ∀ j, 0 < (initLoopA g e l d).devs j → win j := by
  intro l
  induction l with
  | nil => intro d hd j hj; exact hd j hj
  | cons i rest ih =>
    intro d hd j hj
    simp only [initLoopA] at hj
    split_ifs at hj with h
    · exact ih d hd j hj
    · refine ih _ ?_ j hj
      intro j' hj'
      by_cases hji : j' = i ∧ (initA g e i).stat < 0
      · exact hji.1 ▸ hd i (by omega)
      · simp only [if_neg hji] at hj'
        exact hd j' hj'

/-- The read-pass line for address `i` reports address `i`. -/
theorem readLine1A_addr (e : EnvA) (i : Nat) : lineAddr (readLine1A e i) = some i := by
  simp only [readLine1A]
  split_ifs <;> rfl

/-- The read-pass line for address `i` reports address `i`
(bcm2835 variant). -/
theorem readLine1B_addr (e : EnvB) (i : Nat) : lineAddr (readLine1B e i) = some i := by
  simp only [readLine1B]
  split_ifs <;> rfl

/-- Filtering at `j` keeps a line reporting `j`. -/
theorem linesAt_cons_self (j : Nat) (x : OutLine) (ls : List OutLine)
    (hx : lineAddr x = some j) : linesAt j (x :: ls) = x :: linesAt j ls := by
  simp [linesAt, List.filter_cons, hx]

/-- Filtering at `j` drops a line reporting some other address. -/
theorem linesAt_cons_other (j : Nat) (x : OutLine) (ls : List OutLine)
    (hx : ¬ lineAddr x = some j) : linesAt j (x :: ls) = linesAt j ls := by
  simp [linesAt, List.filter_cons, hx]

/-- Closed form of the read pass of `adt74x0.c`: one line per visited
address whose `devs` entry is positive. -/
theorem readLoopA_lines (e : EnvA) (d : Nat → Int) :
    ∀ (l : List Nat), (readLoopA e d l).1 =
      (l.filter (fun i => decide (0 < d i))).map (readLine1A e) := by
  intro l
  induction l with
  | nil => rfl
  | cons i rest ih =>
    simp only [readLoopA]
    by_cases h : d i ≤ 0
    · rw [if_pos h]
      have hdec : decide (0 < d i) = false := by simp; omega
      simp [hdec, ih]
    · rw [if_neg h]
      have hdec : decide (0 < d i) = true := by simp; omega
      show readLine1A e i :: (readLoopA e d rest).1 = _
      simp only [List.filter_cons, hdec, if_true, List.map_cons]
      rw [ih]

/-- The read pass of `adt74x0.c` prints for address `j` exactly its
one line, when `devs[j]` is positive, else nothing. -/
theorem readLoopA_linesAt (e : EnvA) (d : Nat → Int) :
    ∀ (l : List Nat) (j : Nat), l.Nodup → j ∈ l →
      linesAt j (readLoopA e d l).1 =
        if 0 < d j then [readLine1A e j] else [] := by
  intro l
  induction l with
  | nil => intro j _ hj; cases hj
  | cons i rest ih =>
    intro j hnd hj
    have hnd' := List.nodup_cons.mp hnd
    have hnotmem : j ∉ rest → linesAt j (readLoopA e d rest).1 = [] := by
      intro hjr
      apply List.filter_eq_nil.mpr
      intro x hx
      rw [readLoopA_lines] at hx
      obtain ⟨i', hi', rfl⟩ := List.mem_map.mp hx
      simp only [readLine1A_addr, decide_eq_true_eq, Option.some_inj]
      exact fun hh => hjr (hh ▸ (List.mem_filter.mp hi').1)
    simp only [readLoopA]
    rcases List.mem_cons.mp hj with rfl | hjr
    · by_cases h : d j ≤ 0
      · rw [if_pos h, if_neg (show ¬ 0 < d j by omega)]
        exact hnotmem hnd'.1
      · rw [if_neg h, if_pos (show 0 < d j by omega)]
        show linesAt j (readLine1A e j :: (readLoopA e d rest).1) = [readLine1A e j]
        rw [linesAt_cons_self j _ _ (readLine1A_addr e j), hnotmem hnd'.1]
    · have hji : j ≠ i := fun hh => hnd'.1 (hh ▸ hjr)
      by_cases h : d i ≤ 0
      · rw [if_pos h]
        exact ih j hnd'.2 hjr
      · rw [if_neg h]
        show linesAt j (readLine1A e i :: (readLoopA e d rest).1) = _
        rw [linesAt_cons_other j _ _ (by
          rw [readLine1A_addr]
          exact fun hh => hji (Option.some_inj.mp hh).symm)]
        exact ih j hnd'.2 hjr

/-- All bus traffic of the read pass of `adt74x0.c` stays inside the
window, provided only window addresses are marked positive. -/
theorem readLoopA_trace_win (e : EnvA) (d : Nat → Int) (hd : ∀ j, 0 < d j → win j) :
    ∀ (l : List Nat), ∀ ev ∈ (readLoopA e d l).2, ∀ a, evAddr ev = some a → win a := by
  intro l
  induction l with
  | nil => intro ev hev; cases hev
  | cons i rest ih =>
    intro ev hev a ha
    simp only [readLoopA] at hev
    by_cases h : d i ≤ 0
    · rw [if_pos h] at hev
      exact ih ev hev a ha
    · rw [if_neg h] at hev
      have hev' : ev ∈ (readA e i 0).trace ++ (readLoopA e d rest).2 := hev
      rcases List.mem_append.mp hev' with h1 | h2
      · have := readA_trace_addr e i 0 ev h1 a ha
        exact this ▸ hd i (by omega)
      · exact ih ev h2 a ha

/-- The init pass of `adt74x0b.c` leaves `devs[j]` alone for addresses
not visited. -/
theorem initLoopB_devs_not_mem (e : EnvB) :
    ∀ (l : List Nat) (d : Nat → Int) (j : Nat), j ∉ l →
      (initLoopB e l d).1 j = d j := by
  intro l
  induction l with
  | nil => intro d j _; rfl
  | cons i rest ih =>
    intro d j hj
    simp only [List.mem_cons, not_or] at hj
    simp only [initLoopB]
    rw [ih _ j hj.2]
    simp [hj.1]

/-- The init pass of `adt74x0b.c` stores `init_adt74x0`'s status
(truncated to `int8_t`) for each visited address. -/
theorem initLoopB_devs_mem (e : EnvB) :
    ∀ (l : List Nat) (d : Nat → Int) (j : Nat), l.Nodup → j ∈ l →
      (initLoopB e l d).1 j = toSigned8 (initB e j).1 := by
  intro l
  induction l with
  | nil => intro d j _ hj; cases hj
  | cons i rest ih =>
    intro d j hnd hj
    have hnd' := List.nodup_cons.mp hnd
    simp only [initLoopB]
    rcases List.mem_cons.mp hj with rfl | hjr
    · rw [initLoopB_devs_not_mem e rest _ j hnd'.1]
      simp
    · exact ih _ j hnd'.2 hjr

/-- Every bus operation of the init pass of `adt74x0b.c` is directed
at a visited address. -/
theorem initLoopB_trace_mem (e : EnvB) :
    ∀ (l : List Nat) (d : Nat → Int), ∀ ev ∈ (initLoopB e l d).2,
      ∀ a, evAddr ev = some a → a ∈ l := by
  intro l
  induction l with
  | nil => intro d ev hev; cases hev
  | cons i rest ih =>
    intro d ev hev a ha
    simp only [initLoopB] at hev
    have hev' : ev ∈ (initB e i).2 ++ (initLoopB e rest _).2 := hev
    rcases List.mem_append.mp hev' with h1 | h2
    · have := initB_trace_addr e i ev h1 a ha
      exact this ▸ List.mem_cons_self _ _
    · exact List.mem_cons_of_mem _ (ih _ ev h2 a ha)

/-- Closed form of the read pass of `adt74x0b.c`: one line per visited
address whose `devs` entry is zero. -/
theorem readLoopB_lines (e : EnvB) (d : Nat → Int) :
    ∀ (l : List Nat), (readLoopB e d l).1 =
      (l.filter (fun i => decide (d i = 0))).map (readLine1B e) := by
  intro l
  induction l with
  | nil => rfl
  | cons i rest ih =>
    simp only [readLoopB]
    by_cases h : d i ≠ 0
    · rw [if_pos h]
      have hdec : decide (d i = 0) = false := by simp [h]
      simp [hdec, ih]
    · rw [if_neg h]
      have hdec : decide (d i = 0) = true := by simp at h ⊢; omega
      show readLine1B e i :: (readLoopB e d rest).1 = _
      simp only [List.filter_cons, hdec, if_true, List.map_cons]
      rw [ih]

/-- The read pass of `adt74x0b.c` prints for address `j` exactly its
one line, when `devs[j]` is zero, else nothing. -/
theorem readLoopB_linesAt (e : EnvB) (d : Nat → Int) :
    ∀ (l : List Nat) (j : Nat), l.Nodup → j ∈ l →
      linesAt j (readLoopB e d l).1 =
        if d j = 0 then [readLine1B e j] else [] := by
  intro l
  induction l with
  | nil => intro j _ hj; cases hj
  | cons i rest ih =>
    intro j hnd hj
    have hnd' := List.nodup_cons.mp hnd
    have hnotmem : j ∉ rest → linesAt j (readLoopB e d rest).1 = [] := by
      intro hjr
      apply List.filter_eq_nil.mpr
      intro x hx
      rw [readLoopB_lines] at hx
      obtain ⟨i', hi', rfl⟩ := List.mem_map.mp hx
      simp only [readLine1B_addr, decide_eq_true_eq, Option.some_inj]
      exact fun hh => hjr (hh ▸ (List.mem_filter.mp hi').1)
    simp only [readLoopB]
    rcases List.mem_cons.mp hj with rfl | hjr
    · by_cases h : d j ≠ 0
      · rw [if_pos h, if_neg h]
        exact hnotmem hnd'.1
      · rw [if_neg h, if_pos (show d j = 0 by omega)]
        show linesAt j (readLine1B e j :: (readLoopB e d rest).1) = [readLine1B e j]
        rw [linesAt_cons_self j _ _ (readLine1B_addr e j), hnotmem hnd'.1]
    · have hji : j ≠ i := fun hh => hnd'.1 (hh ▸ hjr)
      by_cases h : d i ≠ 0
      · rw [if_pos h]
        exact ih j hnd'.2 hjr
      · rw [if_neg h]
        show linesAt j (readLine1B e i :: (readLoopB e d rest).1) = _
        rw [linesAt_cons_other j _ _ (by
          rw [readLine1B_addr]
          exact fun hh => hji (Option.some_inj.mp hh).symm)]
        exact ih j hnd'.2 hjr

/-- All bus traffic of the read pass of `adt74x0b.c` stays inside the
window, provided only window addresses are marked zero. -/
theorem readLoopB_trace_win (e : EnvB) (d : Nat → Int) (hd : ∀ j, d j = 0 → win j) :
    ∀ (l : List Nat), ∀ ev ∈ (readLoopB e d l).2, ∀ a, evAddr ev = some a → win a := by
  intro l
  induction l with
  | nil => intro ev hev; cases hev
  | cons i rest ih =>
    intro ev hev a ha
    simp only [readLoopB] at hev
    by_cases h : d i ≠ 0
    · rw [if_pos h] at hev
      exact ih ev hev a ha
    · rw [if_neg h] at hev
      have hev' : ev ∈ (readB e i 0).trace ++ (readLoopB e d rest).2 := hev
      rcases List.mem_append.mp hev' with h1 | h2
      · have := readB_trace_addr e i 0 ev h1 a ha
        exact this ▸ hd i (by omega)
      · exact ih ev h2 a ha

/-- Window addresses are below `I2C_ADDRS`. -/
theorem win_lt (j : Nat) (hj : win j) : j ∈ List.range I2C_ADDRS := by
  rcases hj with ⟨h1, h2⟩
  exact List.mem_range.mpr (by simp [I2C_ADDRS]; omega)

/-- The initial `devs` of `adt74x0.c` is positive only inside the
window. -/
theorem devs0A_win (j : Nat) (hj : 0 < devs0A j) : win j := by
  by_contra hw
  simp [devs0A, win] at hj hw
  omega

/-- The initial `devs` of `adt74x0.c` is 1 inside the window. -/
theorem devs0A_one (j : Nat) (hj : win j) : devs0A j = 1 := by
  rcases hj with ⟨h1, h2⟩
  simp [devs0A]
  omega

/-- After the init pass of `adt74x0.c`, the status of a window address
is `stepDevsA` applied to its initial Candidate mark. -/
theorem mainA_devs_char (g : Bool) (e : EnvA) (j : Nat) (hj : win j) :
    (mainA g true e).devs j = stepDevsA g e j 1 := by
  show (initLoopA g e (List.range I2C_ADDRS) devs0A).devs j = _
  rw [initLoopA_devs_mem g e _ _ j (List.nodup_range _) (win_lt j hj), devs0A_one j hj]

/-- Only window addresses can end the init pass of `adt74x0.c` with a
positive status. -/
theorem mainA_devs_win (g : Bool) (e : EnvA) (j : Nat)
    (hj : 0 < (mainA g true e).devs j) : win j := by
  have hj' : 0 < (initLoopA g e (List.range I2C_ADDRS) devs0A).devs j := hj
  exact initLoopA_devs_win g e _ devs0A devs0A_win j hj' 

/-- The lines of a full `adt74x0.c` run that report a window address:
whatever init printed there, then the read-pass line when the address
survived initialization. -/
theorem mainA_linesAt (g : Bool) (e : EnvA) (j : Nat) (hj : win j) :
    linesAt j (mainA g true e).lines =
      (initA g e j).lines ++
        (if 0 < stepDevsA g e j 1 then [readLine1A e j] else []) := by
  show linesAt j (.scanning ::
    ((initLoopA g e (List.range I2C_ADDRS) devs0A).lines ++
      (readLoopA e (initLoopA g e (List.range I2C_ADDRS) devs0A).devs
        (List.range I2C_ADDRS)).1)) = _
  rw [linesAt_cons_other j _ _ (by simp [lineAddr]), linesAt_append]
  rw [initLoopA_linesAt g e _ devs0A j (List.nodup_range _) (win_lt j hj)]
  rw [readLoopA_linesAt e _ _ j (List.nodup_range _) (win_lt j hj)]
  rw [devs0A_one j hj]
  rw [initLoopA_devs_mem g e _ devs0A j (List.nodup_range _) (win_lt j hj)]
  rw [devs0A_one j hj]
  norm_num

/-- Addresses the read pass of `adt74x0b.c` accepts are window
addresses: outside the window `devs` stays −1. -/
theorem mainB_devs_off (e : EnvB) (j : Nat) (hj : ¬ win j) :
    (mainB e).devs j = -1 := by
  show (initLoopB e winList (fun _ => -1)).1 j = -1
  rw [initLoopB_devs_not_mem e winList _ j]
  intro hmem
  simp only [winList, List.mem_cons, List.not_mem_nil, or_false] at hmem
  exact hj ⟨by omega, by omega⟩

/-- After the init pass of `adt74x0b.c`, a window address holds its
(truncated) init status. -/
theorem mainB_devs_char (e : EnvB) (j : Nat) (hj : win j) :
    (mainB e).devs j = toSigned8 (initB e j).1 := by
  show (initLoopB e winList (fun _ => -1)).1 j = _
  apply initLoopB_devs_mem e winList _ j
  · decide
  · simp only [winList, List.mem_cons, List.not_mem_nil, or_false]
    rcases hj with ⟨h1, h2⟩
    omega

/-- Only window addresses can enter the read pass of `adt74x0b.c`. -/
theorem mainB_devs_win (e : EnvB) (j : Nat) (hj : (mainB e).devs j = 0) : win j := by
  by_contra hw
  rw [mainB_devs_off e j hw] at hj
  omega

/-- The lines of a full `adt74x0b.c` run that report a window address:
the read-pass line when the address survived initialization. -/
theorem mainB_linesAt (e : EnvB) (j : Nat) (hj : win j) :
    linesAt j (mainB e).lines =
      if toSigned8 (initB e j).1 = 0 then [readLine1B e j] else [] := by
  show linesAt j (readLoopB e (initLoopB e winList (fun _ => -1)).1
    (List.range I2C_ADDRS)).1 = _
  rw [readLoopB_linesAt e _ _ j (List.nodup_range _) (win_lt j hj)]
  rw [show (initLoopB e winList (fun _ => -1)).1 j = toSigned8 (initB e j).1 from
    mainB_devs_char e j hj]

/-- The wire-order decode identity for the generic variant: from the
SMBus word `lsb<<8 | msb` the program recovers `signed16(msb<<8 | lsb)`. -/
theorem decodeA_wire (h l : Nat) (hh : h < 256) (hl : l < 256) :
    decode16A ((l <<< 8) ||| h) = toSigned16 ((h <<< 8) ||| l) := by
  rw [decode16A_arith, shl_or_eq l h hh, shl_or_eq h l hl]
  have e1 : (256 * l + h) % 256 = h := by omega
  have e2 : (256 * l + h) / 256 % 256 = l := by omega
  rw [e1, e2]

/-- The raw-buffer decode of the bcm2835 variant on in-range bytes. -/
theorem decodeB_wire (h l : Nat) (hh : h < 256) (hl : l < 256) :
    decodeB h l = toSigned16 ((h <<< 8) ||| l) := by
  simp only [decodeB, Nat.mod_eq_of_lt hh, Nat.mod_eq_of_lt hl]

/-- Successful temperature read of `adt74x0.c` on wire bytes `h`, `l`
(delivered as the SMBus word `l<<8 | h`). -/
theorem readA_wire (e : EnvA) (a : Nat) (h l : Nat) (hh : h < 256) (hl : l < 256)
    (h1 : 0 ≤ e.ioctlRead a) (h2 : e.readWord a = ((l <<< 8) ||| h : Nat)) :
    (readA e a 0).stat = 0 ∧
    (readA e a 0).temp = (toSigned16 ((h <<< 8) ||| l) : ℚ) / 128 := by
  have hio : ¬ e.ioctlRead a < 0 := by omega
  have hw : ¬ e.readWord a < 0 := by
    rw [h2]; exact Int.not_lt.mpr (Int.natCast_nonneg _)
  refine ⟨?_, ?_⟩ <;> simp only [readA, if_neg hio, if_neg hw]
  rw [h2, Int.toNat_natCast, decodeA_wire h l hh hl]

/-- Successful temperature read of `adt74x0b.c` on wire bytes `h`, `l`. -/
theorem readB_wire (e : EnvB) (a : Nat) (h l : Nat) (hh : h < 256) (hl : l < 256)
    (h2 : e.readTemp a = (0, h, l)) :
    (readB e a 0).stat = 0 ∧
    (readB e a 0).temp = (toSigned16 ((h <<< 8) ||| l) : ℚ) / 128 := by
  simp only [readB, h2]
  norm_num
  rw [decodeB_wire h l hh hl]

/-- C1: for every pair of raw wire bytes (high, low) delivered by the
temperature-register read, both variants decode the temperature as
`signed16(high<<8 | low) / 128` degrees Celsius; in particular
(0x00, 0x80) gives 1, (0xff, 0x80) gives −1 and (0x19, 0x00) gives
50. -/
theorem claim1_temperature_decode (h l : Nat) (hh : h < 256) (hl : l < 256) :
    (∀ (e : EnvA) (a : Nat), 0 ≤ e.ioctlRead a →
      e.readWord a = ((l <<< 8) ||| h : Nat) →
      (readA e a 0).stat = 0 ∧
      (readA e a 0).temp = (toSigned16 ((h <<< 8) ||| l) : ℚ) / 128) ∧
    (∀ (e : EnvB) (a : Nat), e.readTemp a = (0, h, l) →
      (readB e a 0).stat = 0 ∧
      (readB e a 0).temp = (toSigned16 ((h <<< 8) ||| l) : ℚ) / 128) ∧
    (toSigned16 ((0x00 <<< 8) ||| 0x80) : ℚ) / 128 = 1 ∧
    (toSigned16 ((0xff <<< 8) ||| 0x80) : ℚ) / 128 = -1 ∧
    (toSigned16 ((0x19 <<< 8) ||| 0x00) : ℚ) / 128 = 50 := by
  refine ⟨fun e a h1 h2 => readA_wire e a h l hh hl h1 h2,
    fun e a h2 => readB_wire e a h l hh hl h2, ?_, ?_, ?_⟩
  · rw [show toSigned16 ((0x00 <<< 8) ||| 0x80) = 128 from by decide]
    norm_num
  · rw [show toSigned16 ((0xff <<< 8) ||| 0x80) = -128 from by decide]
    norm_num
  · rw [show toSigned16 ((0x19 <<< 8) ||| 0x00) = 6400 from by decide]
    norm_num

/-- Witness for C1 at wire bytes (0x19, 0x00) against a concrete
transport: the decoded value is 50 °C. -/
theorem claim1_temperature_decode_witness :
    (readA (envAw 0x19) 0x48 0).stat = 0 ∧
    (readA (envAw 0x19) 0x48 0).temp = (toSigned16 ((0x19 <<< 8) ||| 0x00) : ℚ) / 128 :=
  (claim1_temperature_decode 0x19 0x00 (by decide) (by decide)).1 (envAw 0x19) 0x48
    (by decide) (by decide)

/-- C9: the two variants' temperature decoders agree: the generic
variant's decode of the SMBus word `lsb<<8 | msb` (which it byte-swaps)
equals the bcm2835 variant's decode of the raw buffer `[msb, lsb]`,
and the resulting temperatures of the two `read_adt74x0`
implementations coincide. -/
theorem claim9_decoder_equivalence (msb lsb : Nat) (hm : msb < 256) (hl : lsb < 256) :
    decode16A ((lsb <<< 8) ||| msb) = decodeB msb lsb ∧
    (∀ (e : EnvA) (eb : EnvB) (a b : Nat), 0 ≤ e.ioctlRead a →
      e.readWord a = ((lsb <<< 8) ||| msb : Nat) → eb.readTemp b = (0, msb, lsb) →
      (readA e a 0).temp = (readB eb b 0).temp) := by
  constructor
  · rw [decodeA_wire msb lsb hm hl, decodeB_wire msb lsb hm hl]
  · intro e eb a b h1 h2 h3
    rw [(readA_wire e a msb lsb hm hl h1 h2).2, (readB_wire eb b msb lsb hm hl h3).2]

/-- Witness for C9 at wire bytes (0xff, 0x80) with concrete
transports on both variants. -/
theorem claim9_decoder_equivalence_witness :
    (readA (envAw 0x80ff) 0x48 0).temp = (readB (envBw 0xff 0x80) 0x4b 0).temp :=
  (claim9_decoder_equivalence 0xff 0x80 (by decide) (by decide)).2
    (envAw 0x80ff) (envBw 0xff 0x80) 0x48 0x4b (by decide) (by decide) (by decide)

/-- C10: `read_adt74x0` (both variants) never writes through the
caller's temperature pointer on failure — the location keeps its prior
value `t0` — and writes the decoded value exactly when it returns 0;
the return value is never positive. -/
theorem claim10_read_atomicity (e : EnvA) (eb : EnvB) (a : Nat) (t0 : ℚ) :
    (readA e a t0).stat ≤ 0 ∧
    (readA e a t0).temp = (if (readA e a t0).stat = 0
      then (decode16A (e.readWord a).toNat : ℚ) / 128 else t0) ∧
    (readB eb a t0).stat ≤ 0 ∧
    (readB eb a t0).temp = (if (readB eb a t0).stat = 0
      then (decodeB (eb.readTemp a).2.1 (eb.readTemp a).2.2 : ℚ) / 128 else t0) := by
  have hA : ∀ s t tr, (⟨s, t, tr⟩ : ReadRes).stat = s := fun _ _ _ => rfl
  refine ⟨?_, ?_, ?_, ?_⟩
  · simp only [readA]
    split_ifs <;> norm_num
  · simp only [readA]
    split_ifs <;> simp_all
  · by_cases hs : (eb.readTemp a).1 ≠ 0
    · have h1 : (readB eb a t0).stat = -(0x40 + ((eb.readTemp a).1 : Int)) := by
        simp only [readB, if_pos hs]
      rw [h1]; omega
    · have h1 : (readB eb a t0).stat = 0 := by
        simp only [readB, if_neg hs]
      rw [h1]
  · by_cases hs : (eb.readTemp a).1 ≠ 0
    · have h1 : (readB eb a t0).stat = -(0x40 + ((eb.readTemp a).1 : Int)) := by
        simp only [readB, if_pos hs]
      have h2 : (readB eb a t0).temp = t0 := by
        simp only [readB, if_pos hs]
      rw [h2, h1, if_neg (by omega)]
    · have h1 : (readB eb a t0).stat = 0 := by
        simp only [readB, if_neg hs]
      have h2 : (readB eb a t0).temp =
          (decodeB (eb.readTemp a).2.1 (eb.readTemp a).2.2 : ℚ) / 128 := by
        simp only [readB, if_neg hs]
      rw [h2, h1, if_pos rfl]

/-- C5: when identity verification is performed, a raw ID byte `b` is
accepted iff `(b & 0xF8) == 0xC8`; otherwise the init fails with the
ID-mismatch code and (see C6) the address is excluded from the read
phase.  The six example bytes behave as the spec says. -/
theorem claim5_identity_check (b : Nat) (hb : b < 256) :
    (∀ (e : EnvA) (a : Nat), 0 ≤ e.ioctlInit a → 0 ≤ e.writeReset a →
      e.readId a = (b : Int) → 0 ≤ e.writeConfig a →
      ((initA true e a).stat = 0 ↔ b &&& 0xf8 = 0xc8) ∧
      ((initA true e a).stat = -4 ↔ ¬ b &&& 0xf8 = 0xc8)) ∧
    (∀ (e : EnvB) (a : Nat), e.writeReset a = 0 → e.writeConfig a = 0 →
      e.readId a = (0, b) →
      ((initB e a).1 = 0 ↔ b &&& 0xf8 = 0xc8) ∧
      ((initB e a).1 = -0x3f ↔ ¬ b &&& 0xf8 = 0xc8)) ∧
    (initA true (envAid 0xc8) 0x48).stat = 0 ∧
    (initA true (envAid 0xc9) 0x48).stat = 0 ∧
    (initA true (envAid 0xcf) 0x48).stat = 0 ∧
    (initA true (envAid 0x00) 0x48).stat = -4 ∧
    (initA true (envAid 0xd0) 0x48).stat = -4 ∧
    (initA true (envAid 0x48) 0x48).stat = -4 ∧
    (initB (envBid 0xc8) 0x48).1 = 0 ∧
    (initB (envBid 0xd0) 0x48).1 = -0x3f := by
  refine ⟨?_, ?_, by decide, by decide, by decide, by decide, by decide, by decide,
    by decide, by decide⟩
  · intro e a h1 h2 h3 h4
    have hio : ¬ e.ioctlInit a < 0 := by omega
    have hwr : ¬ e.writeReset a < 0 := by omega
    have hwc : ¬ e.writeConfig a < 0 := by omega
    have hid : ¬ e.readId a < 0 := by rw [h3]; exact Int.not_lt.mpr (Int.natCast_nonneg _)
    have htn : (e.readId a).toNat = b := by rw [h3, Int.toNat_natCast]
    by_cases hmask : b &&& 0xf8 = 0xc8
    · have : ¬ (e.readId a).toNat &&& 0xf8 ≠ 0xc8 := by rw [htn]; simp [hmask]
      simp only [initA, if_neg hio, if_neg hwr, if_pos rfl, if_neg hid, if_neg this,
        if_neg hwc]
      simp [hmask]
    · have : (e.readId a).toNat &&& 0xf8 ≠ 0xc8 := by rw [htn]; simp [hmask]
      simp only [initA, if_neg hio, if_neg hwr, if_pos rfl, if_neg hid, if_pos this]
      simp [hmask]
  · intro e a h1 h2 h3
    have hr : ¬ e.writeReset a ≠ 0 := by simp [h1]
    have hc : ¬ e.writeConfig a ≠ 0 := by simp [h2]
    have hi : ¬ (e.readId a).1 ≠ 0 := by simp [h3]
    have hb2 : (e.readId a).2 % 256 = b := by rw [h3]; simpa using Nat.mod_eq_of_lt hb
    by_cases hmask : b &&& 0xf8 = 0xc8
    · have : ¬ (e.readId a).2 % 256 &&& 0xf8 ≠ 0xc8 := by rw [hb2]; simp [hmask]
      simp only [initB, if_neg hr, if_neg hc, if_neg hi, if_neg this]
      simp [hmask]
    · have : (e.readId a).2 % 256 &&& 0xf8 ≠ 0xc8 := by rw [hb2]; simp [hmask]
      simp only [initB, if_neg hr, if_neg hc, if_neg hi, if_pos this]
      simp [hmask]

/-- Witness for C5 at ID byte 0xc9 against concrete healthy
transports: accepted on both variants. -/
theorem claim5_identity_check_witness :
    ((initA true (envAid 0xc9) 0x48).stat = 0 ↔ (0xc9 : Nat) &&& 0xf8 = 0xc8) ∧
    ((initA true (envAid 0xc9) 0x48).stat = -4 ↔ ¬ (0xc9 : Nat) &&& 0xf8 = 0xc8) :=
  (claim5_identity_check 0xc9 (by decide)).1 (envAid 0xc9) 0x48
    (by decide) (by decide) (by decide) (by decide)

/-- C2: in both variants, every bus operation of the whole run —
address selection, write or read — is directed at an address inside
the window [0x48, 0x4b]; addresses outside it are never probed. -/
theorem claim2_address_window (g : Bool) (busOk : Bool) (e : EnvA) (eb : EnvB)
    (ev : Ev) (a : Nat) :
    (ev ∈ (mainA g busOk e).trace → evAddr ev = some a → win a) ∧
    (ev ∈ (mainB eb).trace → evAddr ev = some a → win a) := by
  constructor
  · cases busOk with
    | false =>
      intro hev
      have : ev ∈ ([] : List Ev) := hev
      cases this
    | true =>
      intro hev ha
      have hev' : ev ∈ ((initLoopA g e (List.range I2C_ADDRS) devs0A).trace ++
          [Ev.usleepEv 1000000]) ++
          (readLoopA e (initLoopA g e (List.range I2C_ADDRS) devs0A).devs
            (List.range I2C_ADDRS)).2 := hev
      rcases List.mem_append.mp hev' with h1 | h2
      · rcases List.mem_append.mp h1 with h3 | h4
        · exact initLoopA_trace_win g e _ devs0A devs0A_win ev h3 a ha
        · rcases List.mem_singleton.mp h4 with rfl
          simp [evAddr] at ha
      · exact readLoopA_trace_win e _
          (initLoopA_devs_win g e _ devs0A devs0A_win) _ ev h2 a ha
  · intro hev ha
    have hev' : ev ∈ ((initLoopB eb winList (fun _ => -1)).2 ++ [Ev.delayEv 1000]) ++
        (readLoopB eb (initLoopB eb winList (fun _ => -1)).1 (List.range I2C_ADDRS)).2 :=
      hev
    rcases List.mem_append.mp hev' with h1 | h2
    · rcases List.mem_append.mp h1 with h3 | h4
      · have := initLoopB_trace_mem eb winList _ ev h3 a ha
        simp only [winList, List.mem_cons, List.not_mem_nil, or_false] at this
        exact ⟨by omega, by omega⟩
      · rcases List.mem_singleton.mp h4 with rfl
        simp [evAddr] at ha
    · exact readLoopB_trace_win eb _ (fun j hj => mainB_devs_win eb j hj) _ ev h2 a ha

/-- Witness for C2: the very first bus operation of a healthy generic
run selects 0x48, which lies in the window; likewise for the bcm2835
run. -/
theorem claim2_address_window_witness : win 0x48 ∧ win 0x48 :=
  ⟨(claim2_address_window false true envAok envBok (Ev.selA 0x48) 0x48).1
      (by decide) (by decide),
    (claim2_address_window false true envAok envBok (Ev.setSlave 0x48) 0x48).2
      (by decide) (by decide)⟩

/-- `init_adt74x0` (generic variant, default build) succeeds when its
three transport calls succeed. -/
theorem initA_false_ok (e : EnvA) (j : Nat) (h1 : 0 ≤ e.ioctlInit j)
    (h2 : 0 ≤ e.writeReset j) (h3 : 0 ≤ e.writeConfig j) :
    (initA false e j).stat = 0 := by
  simp only [initA, if_neg (by omega : ¬ e.ioctlInit j < 0),
    if_neg (by omega : ¬ e.writeReset j < 0), Bool.false_eq_true, if_false,
    if_neg (by omega : ¬ e.writeConfig j < 0)]

/-- `read_adt74x0` (generic variant) succeeds when its two transport
calls succeed. -/
theorem readA_ok_stat (e : EnvA) (j : Nat) (h1 : 0 ≤ e.ioctlRead j)
    (h2 : 0 ≤ e.readWord j) : (readA e j 0).stat = 0 := by
  simp only [readA, if_neg (by omega : ¬ e.ioctlRead j < 0),
    if_neg (by omega : ¬ e.readWord j < 0)]

/-- Status bounds for `init_adt74x0` (bcm2835 variant) when the
transport's reason codes are below 200. -/
theorem initB_stat_bounds (e : EnvB) (a : Nat) (h1 : e.writeReset a < 200)
    (h2 : e.writeConfig a < 200) (h3 : (e.readId a).1 < 200) :
    (initB e a).1 = 0 ∨ (-255 ≤ (initB e a).1 ∧ (initB e a).1 ≤ -1) := by
  simp only [initB]
  split_ifs <;> dsimp only <;> omega

/-- C3 fails on the code: address 0x48 is a Candidate, yet when its
initialization fails the run emits no output line at all for it — in
both variants — rather than the claimed error annotation. -/
theorem claim3_counterexample :
    0 < devs0A 0x48 ∧
    linesAt 0x48 (mainA false true envAinitFail).lines = [] ∧
    ¬ (linesAt 0x48 (mainA false true envAinitFail).lines).length = 1 ∧
    linesAt 0x48 (mainB envBinitFail).lines = [] := by
  refine ⟨by decide, by decide, ?_, by decide⟩
  rw [show linesAt 0x48 (mainA false true envAinitFail).lines = [] from by decide]
  decide

/-- C3 amended: a Candidate address gets exactly one output line —
`# 0xNN error code` on read failure or `0xNN tempC` on success — only
when its initialization succeeded; a Candidate whose initialization
failed produces no output line (default builds; for the bcm2835
variant, transport reason codes below 200, so that `int8_t`
truncation cannot turn a failure status into 0). -/
theorem claim3_one_line_per_initialized_candidate (e : EnvA) (eb : EnvB) (j : Nat)
    (hj : win j) :
    ((initA false e j).stat = 0 →
      linesAt j (mainA false true e).lines =
        [if (readA e j 0).stat < 0 then .errLine j ((readA e j 0).stat)
         else .tempLine j ((readA e j 0).temp)]) ∧
    ((initA false e j).stat < 0 →
      linesAt j (mainA false true e).lines = []) ∧
    (eb.writeReset j < 200 → eb.writeConfig j < 200 → (eb.readId j).1 < 200 →
      ((initB eb j).1 = 0 →
        linesAt j (mainB eb).lines =
          [if (readB eb j 0).stat < 0 then .errLine j ((readB eb j 0).stat)
           else .tempLine j ((readB eb j 0).temp)]) ∧
      ((initB eb j).1 < 0 →
        linesAt j (mainB eb).lines = [])) := by
  refine ⟨?_, ?_, ?_⟩
  · intro hstat
    rw [mainA_linesAt false e j hj, initA_false_lines]
    simp only [stepDevsA, hstat]
    norm_num
    simp [readLine1A]
  · intro hstat
    have hrange := initA_stat_range false e j
    rw [mainA_linesAt false e j hj, initA_false_lines]
    simp only [stepDevsA, if_neg (by omega : ¬ (1 : Int) ≤ 0), if_pos hstat]
    rw [if_neg (by
      have := toSigned8_self ((initA false e j).stat) (by omega) (by omega)
      omega)]
    rfl
  · intro hs1 hs2 hs3
    have hbounds := initB_stat_bounds eb j hs1 hs2 hs3
    constructor
    · intro hstat
      rw [mainB_linesAt eb j hj, hstat]
      rw [if_pos (by simp [toSigned8])]
      simp [readLine1B]
    · intro hstat
      rw [mainB_linesAt eb j hj]
      rw [if_neg (toSigned8_ne_zero _ (by omega) (by omega))]

/-- Witness for the amended C3: on a healthy concrete transport,
candidate 0x48 gets exactly its one temperature line. -/
theorem claim3_one_line_per_initialized_candidate_witness :
    linesAt 0x48 (mainA false true envAok).lines =
      [if (readA envAok 0x48 0).stat < 0 then .errLine 0x48 ((readA envAok 0x48 0).stat)
       else .tempLine 0x48 ((readA envAok 0x48 0).temp)] :=
  (claim3_one_line_per_initialized_candidate envAok envBok 0x48 (by decide)).1
    (by decide)

/-- C4: if the bus cannot be opened, `adt74x0.c` exits with status 1
after printing only the header and the failure message (no per-address
lines); if the bus opens, the exit status is 0 whatever the
per-address failures; and a run in which exactly one candidate's read
fails prints the error line for that address and temperature lines for
all other candidates. -/
theorem claim4_fatal_vs_nonfatal :
    (∀ (g : Bool) (e : EnvA), (mainA g false e).exitCode = 1 ∧
      (mainA g false e).lines = [.scanning, .openFail]) ∧
    (∀ (g : Bool) (busOk : Bool) (e : EnvA), busOk = true →
      (mainA g busOk e).exitCode = 0) ∧
    (∀ (e : EnvA) (a : Nat), win a →
      (∀ j, win j → 0 ≤ e.ioctlInit j ∧ 0 ≤ e.writeReset j ∧ 0 ≤ e.writeConfig j) →
      (∀ j, win j → j ≠ a → 0 ≤ e.ioctlRead j ∧ 0 ≤ e.readWord j) →
      (readA e a 0).stat < 0 →
      (mainA false true e).lines =
        .scanning :: winList.map (fun i =>
          if i = a then .errLine a ((readA e a 0).stat)
          else .tempLine i ((readA e i 0).temp))) := by
  refine ⟨fun g e => ⟨rfl, rfl⟩, fun g busOk e hb => by rw [hb]; rfl, ?_⟩
  intro e a ha hinit hread hfail
  have hdevs : ∀ i, i ∈ List.range I2C_ADDRS →
      (initLoopA false e (List.range I2C_ADDRS) devs0A).devs i = devs0A i := by
    intro i hi
    rw [initLoopA_devs_mem false e _ devs0A i (List.nodup_range _) hi]
    by_cases hwi : win i
    · obtain ⟨k1, k2, k3⟩ := hinit i hwi
      rw [devs0A_one i hwi]
      simp [stepDevsA, initA_false_ok e i k1 k2 k3]
    · have h0 : devs0A i = 0 := by
        simp only [devs0A, win] at hwi ⊢
        rw [if_neg hwi]
      rw [h0]
      simp [stepDevsA]
  show OutLine.scanning ::
      ((initLoopA false e (List.range I2C_ADDRS) devs0A).lines ++
        (readLoopA e (initLoopA false e (List.range I2C_ADDRS) devs0A).devs
          (List.range I2C_ADDRS)).1) = _
  rw [initLoopA_false_lines, List.nil_append, readLoopA_lines]
  rw [List.filter_congr (fun i hi => by rw [hdevs i hi])]
  rw [show (List.range I2C_ADDRS).filter (fun i => decide (0 < devs0A i)) = winList
    from by decide]
  congr 1
  apply List.map_congr_left
  intro i hi
  have hwi : win i := by
    simp only [winList, List.mem_cons, List.not_mem_nil, or_false] at hi
    exact ⟨by omega, by omega⟩
  by_cases hia : i = a
  · subst hia
    rw [if_pos rfl]
    simp [readLine1A, if_pos hfail]
  · rw [if_neg hia]
    obtain ⟨k1, k2⟩ := hread i hwi hia
    simp [readLine1A, readA_ok_stat e i k1 k2]

/-- Witness for C4: with the concrete transport failing only the read
at 0x48, the run prints the error line for 0x48 and temperatures for
0x49–0x4b. -/
theorem claim4_fatal_vs_nonfatal_witness :
    (mainA false true envAoneBad).lines =
      .scanning :: winList.map (fun i =>
        if i = 0x48 then .errLine 0x48 ((readA envAoneBad 0x48 0).stat)
        else .tempLine i ((readA envAoneBad i 0).temp)) :=
  claim4_fatal_vs_nonfatal.2.2 envAoneBad 0x48 (by decide)
    (fun j _ => ⟨by simp [envAoneBad, envAok], by simp [envAoneBad, envAok],
      by simp [envAoneBad, envAok]⟩)
    (fun j _ hne => ⟨by simp [envAoneBad, envAok],
      by simp [envAoneBad, envAok, hne]⟩)
    (by decide)

/-- `init_adt74x0` (generic variant) never prints a result line
itself. -/
theorem initA_lines_not_result (g : Bool) (e : EnvA) (j : Nat) :
    ∀ x ∈ (initA g e j).lines, isResultLine x = false := by
  simp only [initA]
  split_ifs <;> (intro x hx; fin_cases hx <;> rfl)

/-- C6 fails on the code: in the bcm2835 variant the configuration
write is issued before the identity register is read, not after the
verification as claimed; the concrete all-healthy trace shows the
config write at position 3 and the ID read at position 4. -/
theorem claim6_counterexample :
    (initB envBok 0x48).2 =
      [.setSlave 0x48, .i2cWrite 0x48 [RESET], .delayEv 1,
       .i2cWrite 0x48 [CONFIG, 0x80], .rRegRs 0x48 IDREG 1] ∧
    (initB envBok 0x48).2.indexOf (Ev.i2cWrite 0x48 [CONFIG, 0x80]) <
      (initB envBok 0x48).2.indexOf (Ev.rRegRs 0x48 IDREG 1) := by decide

/-- C6 amended: initialization performs select address, reset, wait,
then in the generic variant (optionally) verify identity followed by
configure, but in the bcm2835 variant configure followed by identity
verification; a failing step records the status and excludes the
address from the read pass, success records it as initialized (devs 1
resp. 0). -/
theorem claim6_init_order_and_recording (g : Bool) (e : EnvA) (eb : EnvB) (j : Nat) :
    ((initA false e j).stat = 0 →
      (initA false e j).trace =
        [.selA j, .wByte j RESET, .usleepEv 250, .wByteData j CONFIG 0x80]) ∧
    ((initA true e j).stat = 0 →
      (initA true e j).trace =
        [.selA j, .wByte j RESET, .usleepEv 250, .rByteData j IDREG,
         .wByteData j CONFIG 0x80]) ∧
    ((initB eb j).1 = 0 →
      (initB eb j).2 =
        [.setSlave j, .i2cWrite j [RESET], .delayEv 1, .i2cWrite j [CONFIG, 0x80],
         .rRegRs j IDREG 1]) ∧
    (win j →
      ((initA g e j).stat = 0 → (mainA g true e).devs j = 1) ∧
      ((initA g e j).stat < 0 →
        (mainA g true e).devs j = (initA g e j).stat ∧
        (mainA g true e).lines.filter
          (fun x => isResultLine x && decide (lineAddr x = some j)) = [])) ∧
    (win j → eb.writeReset j < 200 → eb.writeConfig j < 200 → (eb.readId j).1 < 200 →
      ((initB eb j).1 = 0 → (mainB eb).devs j = 0) ∧
      ((initB eb j).1 < 0 →
        (mainB eb).devs j ≠ 0 ∧ linesAt j (mainB eb).lines = [])) := by
  refine ⟨?_, ?_, ?_, ?_, ?_⟩
  · intro h
    simp only [initA] at h ⊢
    split_ifs at h ⊢ <;> simp_all
  · intro h
    simp only [initA] at h ⊢
    split_ifs at h ⊢ <;> simp_all
  · intro h
    simp only [initB] at h ⊢
    split_ifs at h ⊢ <;> simp_all <;> omega
  · intro hwj
    constructor
    · intro h0
      rw [mainA_devs_char g e j hwj]
      simp [stepDevsA, h0]
    · intro hneg
      have hrange := initA_stat_range g e j
      have hts : toSigned8 ((initA g e j).stat) = (initA g e j).stat :=
        toSigned8_self _ (by omega) (by omega)
      constructor
      · rw [mainA_devs_char g e j hwj]
        simp only [stepDevsA, if_neg (by omega : ¬ (1 : Int) ≤ 0), if_pos hneg]
        exact hts
      · rw [show (mainA g true e).lines.filter
              (fun x => isResultLine x && decide (lineAddr x = some j)) =
            (linesAt j (mainA g true e).lines).filter isResultLine from by
          simp [linesAt, List.filter_filter, Bool.and_comm]]
        rw [mainA_linesAt g e j hwj]
        simp only [stepDevsA, if_neg (by omega : ¬ (1 : Int) ≤ 0), if_pos hneg]
        rw [if_neg (by omega : ¬ (0 : Int) < toSigned8 ((initA g e j).stat))]
        rw [List.append_nil]
        exact List.filter_eq_nil.mpr
          (fun a ha => by simp [initA_lines_not_result g e j a ha])
  · intro hwj hs1 hs2 hs3
    have hb := initB_stat_bounds eb j hs1 hs2 hs3
    constructor
    · intro h0
      rw [mainB_devs_char eb j hwj, h0]
      simp [toSigned8]
    · intro hneg
      refine ⟨?_, ?_⟩
      · rw [mainB_devs_char eb j hwj]
        exact toSigned8_ne_zero _ (by omega) (by omega)
      · rw [mainB_linesAt eb j hwj,
          if_neg (toSigned8_ne_zero _ (by omega) (by omega))]

/-- Witness for the amended C6: concrete all-healthy traces of both
variants, showing the two step orders. -/
theorem claim6_init_order_and_recording_witness :
    (initA true envAok 0x48).trace =
      [.selA 0x48, .wByte 0x48 RESET, .usleepEv 250, .rByteData 0x48 IDREG,
       .wByteData 0x48 CONFIG 0x80] :=
  (claim6_init_order_and_recording true envAok envBok 0x48).2.1 (by decide)

/-- C7 fails on the code: when the generic variant's word read fails
with transport code −99, the surfaced code is the fixed step code −6,
not the transport's value. -/
theorem claim7_counterexample :
    (readA envAread99 0x48 0).stat = -6 ∧
    envAread99.readWord 0x48 = -99 ∧
    ((-6 : Int) ≠ -99) ∧
    linesAt 0x48 (mainA false true envAread99).lines = [.errLine 0x48 (-6)] := by
  decide

/-- C7 amended: `main` surfaces `read_adt74x0`'s return code verbatim
in the error line, but that code is not the transport's own: the
generic variant maps any failing transport call to a fixed per-step
code (−1 for address selection, −6 for the word read), while the
bcm2835 variant surfaces the transport status negated and offset by a
step tag. -/
theorem claim7_error_code_surfacing (e : EnvA) (eb : EnvB) (j : Nat) (hj : win j) :
    ((initA false e j).stat = 0 → (readA e j 0).stat < 0 →
      linesAt j (mainA false true e).lines = [.errLine j ((readA e j 0).stat)]) ∧
    (e.ioctlRead j < 0 → (readA e j 0).stat = -1) ∧
    (0 ≤ e.ioctlRead j → e.readWord j < 0 → (readA e j 0).stat = -6) ∧
    ((eb.readTemp j).1 ≠ 0 →
      (readB eb j 0).stat = -(0x40 + ((eb.readTemp j).1 : Int))) := by
  refine ⟨?_, ?_, ?_, ?_⟩
  · intro hstat hr
    rw [mainA_linesAt false e j hj, initA_false_lines]
    simp only [stepDevsA, hstat]
    norm_num
    simp [readLine1A, hr]
  · intro h
    simp only [readA, if_pos h]
  · intro h1 h2
    simp only [readA, if_neg (by omega : ¬ e.ioctlRead j < 0), if_pos h2]
  · intro h
    simp only [readB, if_pos h]

/-- Witness for the amended C7: on the concrete transport whose word
read fails with −99, the function returns −6. -/
theorem claim7_error_code_surfacing_witness : (readA envAread99 0x48 0).stat = -6 :=
  (claim7_error_code_surfacing envAread99 envBok 0x48 (by decide)).2.2.1
    (by decide) (by decide)

/-- C8: per-address fault isolation.  Two runs whose transports agree
at every address other than `a` (in particular, a run where a write at
`a` fails versus one where it succeeds) record identical statuses and
print identical lines for every other candidate address, in both
variants. -/
theorem claim8_fault_isolation :
    (∀ (g : Bool) (e1 e2 : EnvA) (a : Nat),
      (∀ j, j ≠ a → e1.ioctlInit j = e2.ioctlInit j ∧
        e1.writeReset j = e2.writeReset j ∧ e1.readId j = e2.readId j ∧
        e1.writeConfig j = e2.writeConfig j ∧ e1.ioctlRead j = e2.ioctlRead j ∧
        e1.readWord j = e2.readWord j) →
      ∀ j, win j → j ≠ a →
        (mainA g true e1).devs j = (mainA g true e2).devs j ∧
        linesAt j (mainA g true e1).lines = linesAt j (mainA g true e2).lines) ∧
    (∀ (e1 e2 : EnvB) (a : Nat),
      (∀ j, j ≠ a → e1.writeReset j = e2.writeReset j ∧
        e1.writeConfig j = e2.writeConfig j ∧ e1.readId j = e2.readId j ∧
        e1.readTemp j = e2.readTemp j) →
      ∀ j, win j → j ≠ a →
        (mainB e1).devs j = (mainB e2).devs j ∧
        linesAt j (mainB e1).lines = linesAt j (mainB e2).lines) := by
  constructor
  · intro g e1 e2 a hagree j hwj hja
    obtain ⟨k1, k2, k3, k4, k5, k6⟩ := hagree j hja
    have hInit : initA g e1 j = initA g e2 j := initA_congr g e1 e2 j k1 k2 k3 k4
    have hRead : readA e1 j 0 = readA e2 j 0 := readA_congr e1 e2 j 0 k5 k6
    have hstep : stepDevsA g e1 j 1 = stepDevsA g e2 j 1 := by
      simp [stepDevsA, hInit]
    have hline : readLine1A e1 j = readLine1A e2 j := by
      simp [readLine1A, hRead]
    constructor
    · rw [mainA_devs_char g e1 j hwj, mainA_devs_char g e2 j hwj, hstep]
    · rw [mainA_linesAt g e1 j hwj, mainA_linesAt g e2 j hwj, hInit, hstep, hline]
  · intro e1 e2 a hagree j hwj hja
    obtain ⟨k1, k2, k3, k4⟩ := hagree j hja
    have hInit : initB e1 j = initB e2 j := initB_congr e1 e2 j k1 k2 k3
    have hRead : readB e1 j 0 = readB e2 j 0 := readB_congr e1 e2 j 0 k4
    have hline : readLine1B e1 j = readLine1B e2 j := by
      simp [readLine1B, hRead]
    constructor
    · rw [mainB_devs_char e1 j hwj, mainB_devs_char e2 j hwj, hInit]
    · rw [mainB_linesAt e1 j hwj, mainB_linesAt e2 j hwj, hInit, hline]

/-- Witness for C8: the transport that fails only 0x48's read and the
one that succeeds everywhere (identical elsewhere) give 0x49 the same
status and the same line. -/
theorem claim8_fault_isolation_witness :
    (mainA false true (envAw 0x0019)).devs 0x49 =
      (mainA false true envAoneBad).devs 0x49 ∧
    linesAt 0x49 (mainA false true (envAw 0x0019)).lines =
      linesAt 0x49 (mainA false true envAoneBad).lines :=
  claim8_fault_isolation.1 false (envAw 0x0019) envAoneBad 0x48
    (fun j hj => ⟨rfl, rfl, rfl, rfl, rfl, by
      simp [envAw, envAoneBad, envAok, hj]⟩)
    0x49 (by decide) (by decide)
